import Mathlib

/-!
Verification of the docxide-pdf rendering pipeline.

This file shallowly embeds the parts of the Rust sources that the verified
properties are about, and proves the properties over the embedding.

Conventions of the embedding:
- A Rust `String` / `&str` is modelled as its sequence of `char`s
  (`List Char`, abbreviated `RStr` below); `u8` / `u16` / `u32` values are
  modelled as `Nat`; `f32` values are modelled as exact rationals `ℚ`
  (floating-point rounding is not modelled).
- A Rust `HashMap` that is only read is modelled as a lookup function
  returning `Option`; a `HashMap` that is mutated is modelled by explicit
  functional update.
- Imperative loops are embedded as folds over the same iteration sequence.
- Struct fields that no embedded function reads are omitted from the
  corresponding Lean structures.
-/

set_option maxRecDepth 8000

namespace Docxide

/-- A Rust string, modelled as its sequence of `char`s. -/
abbrev RStr := List Char

/-! ## fonts.rs -/

/-- `fonts.rs::winansi_to_char`: Windows-1252 (WinAnsi) byte to Unicode char
mapping.  Bytes 0x80-0x9F are remapped; all others map directly to their
Unicode codepoint (`byte as char`). -/
def winansi_to_char (byte : Nat) : Char :=
  match byte with
  | 0x80 => '€'
  | 0x82 => '‚'
  | 0x83 => 'ƒ'
  | 0x84 => '„'
  | 0x85 => '…'
  | 0x86 => '†'
  | 0x87 => '‡'
  | 0x88 => 'ˆ'
  | 0x89 => '‰'
  | 0x8A => 'Š'
  | 0x8B => '‹'
  | 0x8C => 'Œ'
  | 0x8E => 'Ž'
  | 0x91 => '‘'
  | 0x92 => '’'
  | 0x93 => '“'
  | 0x94 => '”'
  | 0x95 => '•'
  | 0x96 => '–'
  | 0x97 => '—'
  | 0x98 => '˜'
  | 0x99 => '™'
  | 0x9A => 'š'
  | 0x9B => '›'
  | 0x9C => 'œ'
  | 0x9E => 'ž'
  | 0x9F => 'Ÿ'
  | _ => Char.ofNat byte

/-- `fonts.rs::char_to_winansi`: map a single Unicode char to its WinAnsi
byte, or 0 if unmappable.  The source matches `c as u32` against the two
direct ranges first, then the 27 high-punctuation codepoints. -/
def char_to_winansi (c : Char) : Nat :=
  if 0x20 ≤ c.toNat ∧ c.toNat ≤ 0x7F then c.toNat
  else if 0xA0 ≤ c.toNat ∧ c.toNat ≤ 0xFF then c.toNat
  else
    match c.toNat with
    | 0x20AC => 0x80
    | 0x201A => 0x82
    | 0x0192 => 0x83
    | 0x201E => 0x84
    | 0x2026 => 0x85
    | 0x2020 => 0x86
    | 0x2021 => 0x87
    | 0x02C6 => 0x88
    | 0x2030 => 0x89
    | 0x0160 => 0x8A
    | 0x2039 => 0x8B
    | 0x0152 => 0x8C
    | 0x017D => 0x8E
    | 0x2018 => 0x91
    | 0x2019 => 0x92
    | 0x201C => 0x93
    | 0x201D => 0x94
    | 0x2022 => 0x95
    | 0x2013 => 0x96
    | 0x2014 => 0x97
    | 0x02DC => 0x98
    | 0x2122 => 0x99
    | 0x0161 => 0x9A
    | 0x203A => 0x9B
    | 0x0153 => 0x9C
    | 0x017E => 0x9E
    | 0x0178 => 0x9F
    | _ => 0

/-- `fonts.rs::to_winansi_bytes`: convert a UTF-8 string to WinAnsi
(Windows-1252) bytes; unmappable chars are dropped (`filter_map`). -/
def to_winansi_bytes (s : RStr) : List Nat :=
  s.filterMap (fun c =>
    if c.toNat ≤ 0x7F then some c.toNat
    else if 0xA0 ≤ c.toNat ∧ c.toNat ≤ 0xFF then some c.toNat
    else
      match c.toNat with
      | 0x20AC => some 0x80
      | 0x201A => some 0x82
      | 0x0192 => some 0x83
      | 0x201E => some 0x84
      | 0x2026 => some 0x85
      | 0x2020 => some 0x86
      | 0x2021 => some 0x87
      | 0x02C6 => some 0x88
      | 0x2030 => some 0x89
      | 0x0160 => some 0x8A
      | 0x2039 => some 0x8B
      | 0x0152 => some 0x8C
      | 0x017D => some 0x8E
      | 0x2018 => some 0x91
      | 0x2019 => some 0x92
      | 0x201C => some 0x93
      | 0x201D => some 0x94
      | 0x2022 => some 0x95
      | 0x2013 => some 0x96
      | 0x2014 => some 0x97
      | 0x02DC => some 0x98
      | 0x2122 => some 0x99
      | 0x0161 => some 0x9A
      | 0x203A => some 0x9B
      | 0x0153 => some 0x9C
      | 0x017E => some 0x9E
      | 0x0178 => some 0x9F
      | _ => none)

/-- `fonts.rs::encode_as_gids`: encode text as big-endian 2-byte glyph IDs
for CIDFont content streams; chars absent from the map get glyph id 0. -/
def encode_as_gids (text : RStr) (char_to_gid : Char → Option Nat) : List Nat :=
  text.foldl (fun out ch =>
    let gid := (char_to_gid ch).getD 0
    out ++ [gid >>> 8, gid &&& 0xFF]) []

/-! ## model.rs (the slice read by the embedded functions) -/

/-- `model.rs::VertAlign`. -/
inductive VertAlign where
  | Baseline
  | Superscript
  | Subscript
deriving DecidableEq

/-- `model.rs::Run`.  Only the fields read by the embedded functions
(`font_key`, table auto-fit, `effective_font_size`, `vert_y_offset`) are
carried; the remaining fields of the source struct (underline, color,
images, field codes, ...) are read by no function embedded here. -/
structure Run where
  text : RStr
  font_size : ℚ
  font_name : RStr
  bold : Bool
  italic : Bool
  vertical_align : VertAlign

/-- `fonts.rs::primary_font_name`: first semicolon-separated candidate,
trimmed. -/
def primary_font_name (name : RStr) : RStr :=
  ((name.takeWhile (fun c => c ≠ ';')).dropWhile Char.isWhitespace).reverse
    |>.dropWhile Char.isWhitespace |>.reverse

/-- `fonts.rs::font_key`: the `seen_fonts` key of a run. -/
def font_key (run : Run) : RStr :=
  let base := primary_font_name run.font_name
  match run.bold, run.italic with
  | true, true => base ++ "/BI".data
  | true, false => base ++ "/B".data
  | false, true => base ++ "/I".data
  | false, false => base

/-! ## docx/mod.rs: embedded-font deobfuscation -/

/-- `docx/mod.rs::deobfuscate_font`: XOR the first 32 bytes (first 16 and
second 16 in two loops) with the 16-byte key; the remainder is untouched.
The in-place mutation is modelled as `mapIdx`. -/
def deobfuscate_font (data : List Nat) (key : List Nat) : List Nat :=
  data.mapIdx (fun i b =>
    if i < 16 then b ^^^ key.getD i 0
    else if i < 32 then b ^^^ key.getD (i - 16) 0
    else b)

/-! ## docx/mod.rs: bullet text normalization -/

/-- `char::from_u32`: `some` exactly on Unicode scalar values. -/
def char_from_u32 (n : Nat) : Option Char :=
  if n.isValidChar then some (Char.ofNat n) else none

/-- `docx/mod.rs::symbol_pua_to_unicode`: the five known Symbol/Wingdings
codes map to standard glyphs; any other code maps to `cp - 0xF000` as a
char (which for `cp ≤ 0xF0FF` always succeeds). -/
def symbol_pua_to_unicode (cp : Nat) : Option Char :=
  let sym := cp - 0xF000
  if sym = 0xB7 then some '•'
  else if sym = 0xA7 then some '■'
  else if sym = 0xA8 then some '○'
  else if sym = 0xD8 then some '♦'
  else if sym = 0x76 then some '√'
  else char_from_u32 sym

/-- `docx/mod.rs::normalize_bullet_text`: substitute private-use-area
codepoints U+F000..U+F0FF; when `symbol_pua_to_unicode` returns `none` the
original char is kept (`unwrap_or(c)`). -/
def normalize_bullet_text (text : RStr) : RStr :=
  text.map (fun c =>
    if 0xF000 ≤ c.toNat ∧ c.toNat ≤ 0xF0FF then (symbol_pua_to_unicode c.toNat).getD c
    else c)

/-! ## docx/mod.rs: number formatting -/

/-- The letter loop shared by the `lowerLetter` / `upperLetter` branches of
`format_number`: repeatedly prepend `base + n % 26` while `n ≥ 26`,
stepping `n ← n / 26 - 1`. -/
def letter_chars (base : Nat) (n : Nat) : RStr :=
  if _h : n < 26 then [Char.ofNat (base + n % 26)]
  else letter_chars base (n / 26 - 1) ++ [Char.ofNat (base + n % 26)]
  termination_by n
  decreasing_by
    have h26 : n / 26 < n := Nat.div_lt_self (by omega) (by omega)
    omega

/-- The greedy roman-numeral table of `docx/mod.rs::to_roman`. -/
def roman_table : List (Nat × RStr) :=
  [(1000, "m".data), (900, "cm".data), (500, "d".data), (400, "cd".data),
   (100, "c".data), (90, "xc".data), (50, "l".data), (40, "xl".data),
   (10, "x".data), (9, "ix".data), (5, "v".data), (4, "iv".data), (1, "i".data)]

/-- The inner `while n >= value` loop of `to_roman`: emit `numeral` and
subtract `value` while it fits.  (All table values are positive; the
`0 < value` guard only serves the termination argument.) -/
def roman_repeat (value : Nat) (numeral : RStr) (n : Nat) : RStr × Nat :=
  if _h : 0 < value ∧ value ≤ n then
    let r := roman_repeat value numeral (n - value)
    (numeral ++ r.1, r.2)
  else ([], n)
  termination_by n
  decreasing_by omega

/-- `docx/mod.rs::to_roman`: greedy roman numerals over `roman_table`. -/
def to_roman (n : Nat) : RStr :=
  (roman_table.foldl (fun acc p =>
    let r := roman_repeat p.1 p.2 acc.2
    (acc.1 ++ r.1, r.2)) ([], n)).1

/-- `docx/mod.rs::format_number`: format a counter value per the numbering
format name.  `decimalZero` zero-pads to width 2 (`{value:02}`);
`to_uppercase` on the ASCII roman output is `Char.toUpper` per char. -/
def format_number (value : Nat) (num_fmt : RStr) : RStr :=
  if num_fmt = "decimal".data then Nat.toDigits 10 value
  else if num_fmt = "decimalZero".data then
    let s := Nat.toDigits 10 value
    if s.length < 2 then '0' :: s else s
  else if num_fmt = "lowerLetter".data then
    if value = 0 then [] else letter_chars 97 (value - 1)
  else if num_fmt = "upperLetter".data then
    if value = 0 then [] else letter_chars 65 (value - 1)
  else if num_fmt = "lowerRoman".data then to_roman value
  else if num_fmt = "upperRoman".data then (to_roman value).map Char.toUpper
  else if num_fmt = "none".data then []
  else Nat.toDigits 10 value

/-! ## docx/mod.rs: list numbering state machine -/

/-- Substring test, the embedding of `str::contains` for string needles. -/
def contains_sub (hay needle : RStr) : Bool :=
  needle.isPrefixOf hay ||
    match hay with
    | [] => false
    | _ :: t => contains_sub t needle

/-- Fuel-indexed worker for `replace_all`; the fuel only realizes the
structural recursion (the haystack length strictly decreases at every
step, so fuel `hay.length` is always enough and the fuel-0 case is never
reached by `replace_all`). -/
def replace_all_fuel : Nat → RStr → RStr → RStr → RStr
  | 0, hay, _, _ => hay
  | _ + 1, [], _, _ => []
  | fuel + 1, c :: rest, needle, repl =>
    if needle ≠ [] ∧ needle.isPrefixOf (c :: rest) then
      repl ++ replace_all_fuel fuel ((c :: rest).drop needle.length) needle repl
    else c :: replace_all_fuel fuel rest needle repl

/-- The embedding of `str::replace`: replace all non-overlapping
occurrences of `needle` left-to-right.  (Rust's behavior on an empty
needle, inserting at every boundary, is not modelled; every needle built
by `parse_list_info` is `"%k"`, which is non-empty.) -/
def replace_all (hay needle repl : RStr) : RStr :=
  replace_all_fuel hay.length hay needle repl

/-- `docx/mod.rs::LevelDef`. -/
structure LevelDef where
  num_fmt : RStr
  lvl_text : RStr
  indent_left : ℚ
  indent_hanging : ℚ
  start : Nat

/-- `docx/mod.rs::NumberingInfo`; the two read-only `HashMap`s are
modelled as lookup functions. -/
structure NumberingInfo where
  abstract_nums : RStr → Option (Nat → Option LevelDef)
  num_to_abstract : RStr → Option RStr

/-- The `w:numPr` element of a paragraph, reduced to the two values
`parse_list_info` reads from it: the `w:numId` val attribute, and the
`w:ilvl` val attribute already parsed as `u8` (`none` when absent or
unparsable, in which case the source falls back to 0). -/
structure NumPr where
  numId : Option RStr
  ilvl : Option Nat

/-- The mutable state threaded through `parse_list_info`: the
per-`(numId, level)` counters and the last seen level per `numId`. -/
structure ListState where
  counters : RStr × Nat → Option Nat
  last_seen_level : RStr → Option Nat

/-- `HashMap::remove` on the counters map. -/
def erase_counter (m : RStr × Nat → Option Nat) (k : RStr × Nat) : RStr × Nat → Option Nat :=
  fun q => if q = k then none else m q

/-- `HashMap::insert` on the counters map. -/
def insert_counter (m : RStr × Nat → Option Nat) (k : RStr × Nat) (v : Nat) :
    RStr × Nat → Option Nat :=
  fun q => if q = k then some v else m q

/-- The deeper-level reset block of `parse_list_info`: when returning to a
level at or above the previously seen one, remove the counters of the
`u8` range `(ilvl + 1)..=prev`.  The `u8` addition `ilvl + 1` wraps at
256 — modelled as `% 256`, the release-build semantics (a debug build
panics on the overflow instead): at `ilvl = 255` the lower bound wraps
to 0 and the loop erases the counters of every level `0..=prev`,
including level 255 itself.  For `ilvl < 255` the range is the plain
`ilvl+1 ..= prev`. -/
def reset_counters (st : ListState) (num_id : RStr) (ilvl : Nat) :
    RStr × Nat → Option Nat :=
  match st.last_seen_level num_id with
  | some prev =>
    if ilvl ≤ prev then
      (List.range' ((ilvl + 1) % 256) (prev + 1 - (ilvl + 1) % 256)).foldl
        (fun m deeper => erase_counter m (num_id, deeper)) st.counters
    else st.counters
  | none => st.counters

/-- `docx/mod.rs::parse_list_info`: resolve the list label of one paragraph
and update the numbering counters.  Returns
`((indent_left, indent_hanging, label), new state)`. -/
def parse_list_info (num_pr : Option NumPr) (numbering : NumberingInfo) (st : ListState) :
    (ℚ × ℚ × RStr) × ListState :=
  match num_pr with
  | none => ((0, 0, []), st)
  | some np =>
    match np.numId with
    | none => ((0, 0, []), st)
    | some num_id =>
      if num_id = "0".data then ((0, 0, []), st)
      else
        let ilvl := np.ilvl.getD 0
        match numbering.num_to_abstract num_id with
        | none => ((0, 0, []), st)
        | some abs_id =>
          match numbering.abstract_nums abs_id with
          | none => ((0, 0, []), st)
          | some levels =>
            match levels ilvl with
            | none => ((0, 0, []), st)
            | some d =>
              let counters0 := reset_counters st num_id ilvl
              let last_seen := fun q => if q = num_id then some ilvl else st.last_seen_level q
              let current_counter :=
                match counters0 (num_id, ilvl) with
                | some c => c + 1
                | none => d.start
              let counters1 := insert_counter counters0 (num_id, ilvl) current_counter
              let label :=
                if d.num_fmt = "bullet".data then
                  let text := normalize_bullet_text d.lvl_text
                  if text = [] then ['•'] else text
                else
                  (List.range 9).foldl (fun label lvl_idx =>
                    let placeholder := '%' :: Nat.toDigits 10 (lvl_idx + 1)
                    if contains_sub label placeholder then
                      let lvl_counter :=
                        if lvl_idx = ilvl then current_counter
                        else (counters1 (num_id, lvl_idx)).getD
                          (((levels lvl_idx).map (fun x => x.start)).getD 1)
                      let lvl_fmt := ((levels lvl_idx).map (fun x => x.num_fmt)).getD "decimal".data
                      replace_all label placeholder (format_number lvl_counter lvl_fmt)
                    else label) d.lvl_text
              ((d.indent_left, d.indent_hanging, label), ⟨counters1, last_seen⟩)

/-! ## docx/styles.rs: style inheritance resolution -/

/-- `model.rs::Alignment`. -/
inductive Alignment where
  | Left
  | Center
  | Right
  | Justify
deriving DecidableEq

/-- `model.rs::BorderBottom` (as constructed by the parser: width, space,
RGB color). -/
structure BorderBottom where
  width_pt : ℚ
  space_pt : ℚ
  color : Nat × Nat × Nat

/-- `docx/styles.rs::ParagraphStyle`. -/
structure ParagraphStyle where
  font_size : Option ℚ
  font_name : Option RStr
  bold : Option Bool
  italic : Option Bool
  color : Option (Nat × Nat × Nat)
  space_before : Option ℚ
  space_after : Option ℚ
  alignment : Option Alignment
  contextual_spacing : Bool
  keep_next : Bool
  line_spacing : Option ℚ
  border_bottom_extra : ℚ
  border_bottom : Option BorderBottom
  based_on : Option RStr

/-- The styles dictionary `HashMap<String, ParagraphStyle>`, modelled as an
association list (keys unique in the source; iteration order of
`styles.keys()` is the list order here). -/
abbrev StyleMap := List (RStr × ParagraphStyle)

/-- `HashMap::get` on the styles map. -/
def lookup_style (styles : StyleMap) (id : RStr) : Option ParagraphStyle :=
  (styles.find? (fun p => p.1 = id)).map (fun p => p.2)

/-- `HashMap::get_mut` followed by an update of the found entry. -/
def update_style (styles : StyleMap) (id : RStr) (f : ParagraphStyle → ParagraphStyle) : StyleMap :=
  match styles with
  | [] => []
  | (k, v) :: rest =>
    if k = id then (k, f v) :: rest else (k, v) :: update_style rest id f

/-- The ancestor-chain loop of `docx/styles.rs::resolve_based_on`:
`loop { if chain.contains(&current) { break; } chain.push(current);
match based_on { Some(p) => current = p, None => break } }`.
The loop is embedded with explicit fuel; `resolve_one` runs it with fuel
`styles.length + 1`, which theorem C8 shows is always enough. -/
def build_chain (styles : StyleMap) (chain : List RStr) (current : RStr) :
    Nat → List RStr
  | 0 => chain
  | fuel + 1 =>
    if current ∈ chain then chain
    else
      let chain' := chain ++ [current]
      match (lookup_style styles current).bind (fun s => s.based_on) with
      | some parent => build_chain styles chain' parent fuel
      | none => chain'

/-- The `inh` accumulator's initial value in `resolve_based_on` (all
optionals `None`). -/
def empty_inherited : ParagraphStyle :=
  { font_size := none, font_name := none, bold := none, italic := none,
    color := none, space_before := none, space_after := none,
    alignment := none, contextual_spacing := false, keep_next := false,
    line_spacing := none, border_bottom_extra := 0, border_bottom := none,
    based_on := none }

/-- One ancestor's contribution to `inh` (the expansion of the `inherit!`
macro: each `Some` field of the ancestor overwrites the accumulator). -/
def inherit_core (s inh : ParagraphStyle) : ParagraphStyle :=
  { inh with
    font_name := if s.font_name.isSome then s.font_name else inh.font_name,
    font_size := if s.font_size.isSome then s.font_size else inh.font_size,
    bold := if s.bold.isSome then s.bold else inh.bold,
    italic := if s.italic.isSome then s.italic else inh.italic,
    color := if s.color.isSome then s.color else inh.color,
    alignment := if s.alignment.isSome then s.alignment else inh.alignment,
    space_before := if s.space_before.isSome then s.space_before else inh.space_before,
    space_after := if s.space_after.isSome then s.space_after else inh.space_after,
    line_spacing := if s.line_spacing.isSome then s.line_spacing else inh.line_spacing }

/-- One step of the `for ancestor_id in chain.iter().rev()` walk
(ancestors absent from the map contribute nothing). -/
def inherit_step (styles : StyleMap) (inh : ParagraphStyle) (aid : RStr) : ParagraphStyle :=
  match lookup_style styles aid with
  | none => inh
  | some s => inherit_core s inh

/-- The accumulated inherited values: walk the chain from furthest to
closest ancestor. -/
def accumulate_inherited (styles : StyleMap) (chain : List RStr) : ParagraphStyle :=
  chain.reverse.foldl (inherit_step styles) empty_inherited

/-- The final override at the end of `resolve_based_on`'s body: the
style's own `Some` values win over the inherited ones. -/
def override_style (s inh : ParagraphStyle) : ParagraphStyle :=
  { s with
    font_name := s.font_name.or inh.font_name,
    font_size := s.font_size.or inh.font_size,
    bold := s.bold.or inh.bold,
    italic := s.italic.or inh.italic,
    color := s.color.or inh.color,
    alignment := s.alignment.or inh.alignment,
    space_before := s.space_before.or inh.space_before,
    space_after := s.space_after.or inh.space_after,
    line_spacing := s.line_spacing.or inh.line_spacing }

/-- The body of `resolve_based_on`'s `for id in ids` loop for one id. -/
def resolve_one (styles : StyleMap) (id : RStr) : StyleMap :=
  let chain := build_chain styles [] id (styles.length + 1)
  let inh := accumulate_inherited styles chain
  update_style styles id (fun s => override_style s inh)

/-- `docx/styles.rs::resolve_based_on`: resolve every style in place,
iterating the (pre-collected) key list. -/
def resolve_based_on (styles : StyleMap) : StyleMap :=
  (styles.map (fun p => p.1)).foldl resolve_one styles

/-! ## pdf/layout.rs: vertical alignment of runs -/

/-- `pdf/layout.rs::effective_font_size`: 58% of the nominal size for
superscript/subscript runs. -/
def effective_font_size (run : Run) : ℚ :=
  match run.vertical_align with
  | VertAlign.Superscript | VertAlign.Subscript => run.font_size * 0.58
  | VertAlign.Baseline => run.font_size

/-- `pdf/layout.rs::vert_y_offset`: +35% of the nominal size for
superscript, -14% for subscript. -/
def vert_y_offset (run : Run) : ℚ :=
  match run.vertical_align with
  | VertAlign.Superscript => run.font_size * 0.35
  | VertAlign.Subscript => -run.font_size * 0.14
  | VertAlign.Baseline => 0

/-! ## pdf/mod.rs: paragraph split with orphan/widow control -/

/-- The `lines_that_fit` computation of `pdf/mod.rs::render` (overflow
branch): `if line_h > 0.0 && available >= first_line_h
{ 1 + ((available - first_line_h) / line_h).floor as usize } else { 0 }`. -/
def lines_that_fit_count (available first_line_h line_h : ℚ) : Nat :=
  if 0 < line_h ∧ first_line_h ≤ available then
    1 + (Int.floor ((available - first_line_h) / line_h)).toNat
  else 0

/-- The split decision of the overflow branch of `pdf/mod.rs::render`:
reduce `lines_that_fit` for orphan control (`saturating_sub` is `Nat`
subtraction), zero it under `keepLines`, and split only when
`2 ≤ lines_that_fit < nlines` — `some k` means the first `k` lines render
before the column/page break, `none` means the whole paragraph moves. -/
def paragraph_split (available first_line_h line_h : ℚ) (nlines : Nat)
    (keep_lines : Bool) : Option Nat :=
  let ltf0 := lines_that_fit_count available first_line_h line_h
  let ltf1 := if 0 < ltf0 ∧ nlines - ltf0 < 2 then nlines - 2 else ltf0
  let ltf2 := if keep_lines then 0 else ltf1
  if 2 ≤ ltf2 ∧ ltf2 < nlines then some ltf2 else none

/-! ## pdf/table.rs: column auto-fit -/

/-- `fonts.rs::FontEntry`, reduced to the width table read by the
auto-fit pass (224 entries for WinAnsi bytes 32..=255). -/
structure FontEntry where
  widths_1000 : List ℚ

/-- `str::split_whitespace`: maximal non-empty runs of non-whitespace. -/
def split_whitespace (s : RStr) : List RStr :=
  (s.splitOnP (fun c => c.isWhitespace)).filter (fun w => w ≠ [])

/-- The unbreakable-word width of `auto_fit_columns`: WinAnsi bytes
`≥ 32`, each measured via `widths_1000[(b - 32)] * font_size / 1000`. -/
def word_width (entry : FontEntry) (font_size : ℚ) (word : RStr) : ℚ :=
  (((to_winansi_bytes word).filter (fun b => 32 ≤ b)).map
    (fun b => entry.widths_1000.getD (b - 32) 0 * font_size / 1000)).sum

/-- `model.rs::Paragraph`, reduced to its run list (the only field the
auto-fit pass reads). -/
structure Paragraph where
  runs : List Run

/-- `model.rs::TableCell`, reduced to the fields the auto-fit pass reads. -/
structure TableCell where
  width : ℚ
  paragraphs : List Paragraph
  grid_span : Nat

/-- `model.rs::TableRow`, reduced to its cell list. -/
structure TableRow where
  cells : List TableCell

/-- `model.rs::Table`, reduced to the fields the auto-fit pass reads. -/
structure Table where
  col_widths : List ℚ
  rows : List TableRow

/-- One run's contribution to `min_widths[grid_col]` (inner loops of
`auto_fit_columns`): max the entry at `grid_col` with each unbreakable
word's width. -/
def min_widths_run (seen_fonts : RStr → Option FontEntry) (grid_col : Nat)
    (mw : List ℚ) (run : Run) : List ℚ :=
  match seen_fonts (font_key run) with
  | none => mw
  | some entry =>
    (split_whitespace run.text).foldl
      (fun mw word => mw.set grid_col (max (mw.getD grid_col 0) (word_width entry run.font_size word)))
      mw

/-- One cell's contribution to `min_widths`, tracking the `grid_col`
cursor: spanned or out-of-range cells only advance the cursor. -/
def min_widths_cell (seen_fonts : RStr → Option FontEntry) (ncols : Nat)
    (acc : List ℚ × Nat) (cell : TableCell) : List ℚ × Nat :=
  let span := max cell.grid_span 1
  if ncols ≤ acc.2 ∨ 1 < span then (acc.1, acc.2 + span)
  else
    (cell.paragraphs.foldl
      (fun mw para => para.runs.foldl (min_widths_run seen_fonts acc.2) mw) acc.1,
     acc.2 + span)

/-- The `min_widths` pass of `auto_fit_columns` over all rows. -/
def table_min_widths (table : Table) (seen_fonts : RStr → Option FontEntry) : List ℚ :=
  table.rows.foldl
    (fun mw row => (row.cells.foldl (min_widths_cell seen_fonts table.col_widths.length) (mw, 0)).1)
    (List.replicate table.col_widths.length 0)

/-- The expansion pass of `auto_fit_columns`: each index is processed
independently and exactly once, so the `for i in 0..ncols` loop is
embedded pointwise over the zipped `(declared, minimum)` pairs (the two
lists have equal length). -/
def expanded_widths (ws ms : List ℚ) : List ℚ :=
  (ws.zip ms).map (fun p => if p.2 > p.1 then p.2 else p.1)

/-- The `extra_needed` accumulator of the expansion loop. -/
def extra_needed (ws ms : List ℚ) : ℚ :=
  ((ws.zip ms).map (fun p => if p.2 > p.1 then p.2 - p.1 else 0)).sum

/-- The `shrinkable` accumulator of the expansion loop. -/
def shrinkable (ws ms : List ℚ) : ℚ :=
  ((ws.zip ms).map (fun p => if p.2 > p.1 then 0 else p.1 - p.2)).sum

/-- The proportional-shrink loop of `auto_fit_columns`: columns still above
their minimum lose `(width - min) * factor`. -/
def shrunk_widths (ws ms : List ℚ) (factor : ℚ) : List ℚ :=
  (ws.zip ms).map (fun p => if p.1 > p.2 then p.1 - (p.1 - p.2) * factor else p.1)

/-- `pdf/table.rs::auto_fit_columns`. -/
def auto_fit_columns (table : Table) (seen_fonts : RStr → Option FontEntry) : List ℚ :=
  if table.col_widths.length = 0 then table.col_widths
  else
    let min_widths := table_min_widths table seen_fonts
    let total := table.col_widths.sum
    let ex := extra_needed table.col_widths min_widths
    let sh := shrinkable table.col_widths min_widths
    let widths := expanded_widths table.col_widths min_widths
    if ex > 0 ∧ sh > 0 then
      let factor := min ex sh / sh
      let widths := shrunk_widths widths min_widths factor
      let new_total := widths.sum
      if |new_total - total| > 0.01 then widths.map (fun w => w * (total / new_total))
      else widths
    else widths

/-! ## docx/mod.rs: parse and its failure modes

`src/error.rs` is referenced by `lib.rs` but is not part of the tree;
the `Error` enum below is modelled from the spec: the four error kinds of
§7 (`Io`, `InvalidDocx`, `XmlParse`, `Pdf`).  Everything else below is
embedded from `docx/mod.rs::parse`. -/

/-- Modelled from the spec: the error kinds of §7 (`src/error.rs` is
absent from the tree; the constructors used by `parse` are
`Error::InvalidDocx(msg)`, `Error::Pdf(msg)`, `Error::Io`, and the
`From<roxmltree::Error>` conversion producing `XmlParse`). -/
inductive Error where
  | Io
  | InvalidDocx (msg : RStr)
  | XmlParse
  | Pdf (msg : RStr)
deriving DecidableEq

/-- An XML element as seen through roxmltree: namespace, tag name,
children.  (Attributes and text are not read by the embedded slice of
`parse`.) -/
inductive Xml where
  | elem (ns : Option RStr) (name : RStr) (children : List Xml)

/-- The outcome of `roxmltree::Document::parse` on one ZIP part: either
malformed, or well-formed with a root element.  XML tokenization is an
out-of-scope collaborator, so the outcome is part of the input model. -/
inductive XmlRes where
  | malformed
  | wellFormed (root : Xml)

/-- The input to `parse` after the out-of-scope ZIP layer: either not a
valid ZIP archive, or a map from part names to part contents. -/
inductive DocxInput where
  | notZip
  | zip (entries : List (RStr × XmlRes))

/-- The WordprocessingML namespace constant `WML_NS`. -/
def WML_NS : RStr :=
  "http://schemas.openxmlformats.org/wordprocessingml/2006/main".data

/-- `docx/mod.rs::wml`: first child with the given tag name in the WML
namespace. -/
def wml (node : Xml) (name : RStr) : Option Xml :=
  match node with
  | Xml.elem _ _ children =>
    children.find? (fun child =>
      match child with
      | Xml.elem ns cname _ => cname = name ∧ ns = some WML_NS)

/-- `zip.by_name`: look up a part by name. -/
def zip_entry (entries : List (RStr × XmlRes)) (name : RStr) : Option XmlRes :=
  (entries.find? (fun p => p.1 = name)).map (fun p => p.2)

/-- The failure-relevant skeleton of `docx/mod.rs::parse`: ZIP open,
`word/document.xml` lookup, XML parse, and the `w:body` check, with the
exact error constructors and messages of the source.  The optional parts
read before the body (theme, styles, numbering, rels, fonts, footnotes)
never fail and are skipped; parsing past the body check always succeeds in
this model (`()` stands for the built document), which is sound for the
three failure causes under study since each returns before that point. -/
def docx_parse (input : DocxInput) : Except Error Unit :=
  match input with
  | DocxInput.notZip => Except.error (Error.InvalidDocx "file is not a ZIP archive".data)
  | DocxInput.zip entries =>
    match zip_entry entries "word/document.xml".data with
    | none =>
      Except.error (Error.InvalidDocx "missing word/document.xml (is this a DOCX file?)".data)
    | some XmlRes.malformed => Except.error Error.XmlParse
    | some (XmlRes.wellFormed root) =>
      match wml root "body".data with
      | none => Except.error (Error.Pdf "Missing w:body".data)
      | some _ => Except.ok ()

/-- Whether a parse outcome is an `InvalidDocx` failure. -/
def is_invalid_docx (r : Except Error Unit) : Bool :=
  match r with
  | Except.error (Error.InvalidDocx _) => true
  | _ => false

/-! ## Auxiliary definitions used only by theorem statements -/

/-- The 27 high-punctuation WinAnsi codepoints of the 0x80..0x9F region. -/
def winansi_highpunct : RStr :=
  ['€', '‚', 'ƒ', '„', '…', '†', '‡', 'ˆ', '‰', 'Š', '‹', 'Œ', 'Ž',
   '‘', '’', '“', '”', '•', '–', '—', '˜', '™', 'š', '›', 'œ', 'ž', 'Ÿ']

/-- The WinAnsi-representable characters as claimed: the printable
Latin-1 codepoints (0x20..0x7E and 0xA0..0xFF) plus the 27
high-punctuation mappings. -/
def winansi_representable : RStr :=
  ((List.range 0x100).filter
    (fun n => (0x20 ≤ n ∧ n ≤ 0x7E) ∨ (0xA0 ≤ n ∧ n ≤ 0xFF))).map Char.ofNat
  ++ winansi_highpunct

/-- State invariant of the numbering counters for one `numId`: no counter
exists at a level deeper than the last seen level (and none at all before
the first paragraph of that `numId`). -/
def counters_inv (st : ListState) (nid : RStr) : Prop :=
  ∀ e : Nat,
    (match st.last_seen_level nid with
     | some p => p < e
     | none => True) →
    st.counters (nid, e) = none

/-- First `Some` value of an attribute along a style chain, scanning from
the style itself (nearest) to the furthest ancestor. -/
def chain_first {α : Type} (styles : StyleMap) (chain : List RStr)
    (get : ParagraphStyle → Option α) : Option α :=
  chain.findSome? (fun a => (lookup_style styles a).bind get)

/-- Concrete numbering levels for the C6 scenario: decimal formats at
levels 0 and 1, level 1 with `lvlText = "%1.%2."`. -/
def C6_levels : Nat → Option LevelDef := fun l =>
  if l = 0 then some ⟨"decimal".data, "%1.".data, 0, 0, 1⟩
  else if l = 1 then some ⟨"decimal".data, "%1.%2.".data, 0, 0, 1⟩
  else none

/-- Concrete numbering info: `numId "5" → abstract "A" → C6_levels`. -/
def C6_numbering : NumberingInfo :=
  ⟨fun a => if a = ['A'] then some C6_levels else none,
   fun n => if n = ['5'] then some ['A'] else none⟩

/-- Concrete counter state: counters `(5,0) ↦ 1`, `(5,1) ↦ 2`, last seen
level 1 — the next level-1 paragraph reads counters `(1, 3)`. -/
def C6_state : ListState :=
  ⟨fun q => if q = (['5'], 0) then some 1 else if q = (['5'], 1) then some 2 else none,
   fun n => if n = ['5'] then some 1 else none⟩

/-- Concrete numbering levels for the C6 wrap scenario: a definition at
the maximal `u8` level 255. -/
def C6_wrap_levels : Nat → Option LevelDef := fun l =>
  if l = 255 then some ⟨"decimal".data, "%1.".data, 0, 0, 1⟩ else none

/-- Concrete numbering info for the C6 wrap scenario:
`numId "7" → abstract "W" → C6_wrap_levels`. -/
def C6_wrap_numbering : NumberingInfo :=
  ⟨fun a => if a = ['W'] then some C6_wrap_levels else none,
   fun n => if n = ['7'] then some ['W'] else none⟩

/-- Concrete state for the C6 wrap scenario: the level-255 counter is at
7 and level 255 was just seen, so a second level-255 paragraph follows a
paragraph at the same level. -/
def C6_wrap_state : ListState :=
  ⟨fun q => if q = (['7'], 255) then some 7 else none,
   fun n => if n = ['7'] then some 255 else none⟩

/-- Concrete style for the C8 scenario: `"a"` based on `"b"`, no explicit
font size. -/
def C8_a : ParagraphStyle := { empty_inherited with based_on := some ['b'] }

/-- Concrete style for the C8 scenario: `"b"` based on `"a"` (a 2-cycle),
explicit font size 14. -/
def C8_b : ParagraphStyle :=
  { empty_inherited with font_size := some 14, based_on := some ['a'] }

/-- Concrete 2-cycle styles map for the C8 scenario. -/
def C8_styles : StyleMap := [(['a'], C8_a), (['b'], C8_b)]

/-- Concrete font entry for the C2 scenario (a flat 224-entry width
table, 500/1000 em per glyph). -/
def C2_entry : FontEntry := ⟨List.replicate 224 500⟩

/-- Concrete run for the C2 scenario: the unbreakable word `"!!"` at
12 pt in font `"F"` measures 12 pt. -/
def C2_run : Run := ⟨"!!".data, 12, ['F'], false, false, VertAlign.Baseline⟩

/-- Concrete one-column table for the C2 scenario: declared width 10 pt,
single cell whose content needs 12 pt. -/
def C2_table : Table := ⟨[10], [⟨[⟨0, [⟨[C2_run]⟩], 1⟩]⟩]⟩

/-- Concrete font map for the C2 scenario. -/
def C2_fonts : RStr → Option FontEntry := fun k => if k = ['F'] then some C2_entry else none

/-! # Theorems -/

/-- C9: a run with vertical-align Superscript or Subscript is emitted at
58% of the nominal font size, with a baseline offset of +35% of the
nominal size (upward) for Superscript and 14% of the nominal size
downward for Subscript; a 10 pt superscript run gives 5.8 pt and
+3.5 pt. -/
theorem claim_C9 (run : Run) :
    (run.vertical_align = VertAlign.Superscript →
      effective_font_size run = 0.58 * run.font_size ∧
      vert_y_offset run = 0.35 * run.font_size) ∧
    (run.vertical_align = VertAlign.Subscript →
      effective_font_size run = 0.58 * run.font_size ∧
      vert_y_offset run = -(0.14 * run.font_size)) ∧
    (run.vertical_align = VertAlign.Superscript → run.font_size = 10 →
      effective_font_size run = 5.8 ∧ vert_y_offset run = 3.5) := by
  refine ⟨fun h => ?_, fun h => ?_, fun h h10 => ?_⟩
  · simp only [effective_font_size, vert_y_offset, h]
    constructor <;> ring
  · simp only [effective_font_size, vert_y_offset, h]
    constructor <;> ring
  · simp only [effective_font_size, vert_y_offset, h, h10]
    constructor <;> norm_num

/-- Witness for C9 at a concrete 10 pt superscript run. -/
theorem claim_C9_witness :
    effective_font_size (Run.mk [] 10 [] false false VertAlign.Superscript) = 5.8 ∧
    vert_y_offset (Run.mk [] 10 [] false false VertAlign.Superscript) = 3.5 :=
  (claim_C9 (Run.mk [] 10 [] false false VertAlign.Superscript)).2.2 rfl rfl

/-- C5: when a paragraph overflows, the paginator either moves it whole
(always under `keepLines`) or splits it with at least 2 lines rendered
before the break and at least 2 lines after it; a 1-line fragment never
occurs on either side. -/
theorem claim_C5 (available first_line_h line_h : ℚ) (nlines : Nat) (keep_lines : Bool) :
    (keep_lines = true →
      paragraph_split available first_line_h line_h nlines keep_lines = none) ∧
    (∀ k, paragraph_split available first_line_h line_h nlines keep_lines = some k →
      2 ≤ k ∧ k < nlines ∧ 2 ≤ nlines - k) := by
  constructor
  · intro h
    subst h
    simp [paragraph_split]
  · intro k hk
    simp only [paragraph_split] at hk
    split_ifs at hk <;>
      first
        | exact Option.noConfusion hk
        | (rw [Option.some.injEq] at hk; omega)

/-- Witness for C5: a 6-line paragraph with room for 6 of its lines but
overflowing (the overflow test fired) is split 4 before / 2 after. -/
theorem claim_C5_witness :
    2 ≤ 4 ∧ 4 < 6 ∧ 2 ≤ 6 - 4 :=
  (claim_C5 110 10 20 6 false).2 4 (by
    have h5 : ((110 : ℚ) - 10) / 20 = (5 : ℚ) := by norm_num
    simp only [paragraph_split, lines_that_fit_count, h5]
    decide)

/-- C4: deobfuscation XORs exactly the first 32 bytes with two
concatenated copies of the 16-byte key (byte `i` with `key[i % 16]`),
leaves bytes at index ≥ 32 unchanged, and applying it twice with the same
key restores the original bytes. -/
theorem claim_C4 (data key : List Nat) (_hk : key.length = 16) :
    (∀ i, i < data.length → i < 32 →
      (deobfuscate_font data key).getD i 0 = data.getD i 0 ^^^ key.getD (i % 16) 0) ∧
    (∀ i, 32 ≤ i → (deobfuscate_font data key).getD i 0 = data.getD i 0) ∧
    deobfuscate_font (deobfuscate_font data key) key = data := by
  refine ⟨?_, ?_, ?_⟩
  · intro i hi h32
    rw [List.getD_eq_getElem?_getD, List.getD_eq_getElem?_getD]
    unfold deobfuscate_font
    rw [List.getElem?_mapIdx, List.getElem?_eq_getElem hi]
    have he : i % 16 = if i < 16 then i else i - 16 := by
      split_ifs <;> omega
    rw [he]
    split_ifs with h1 h2 <;> first | rfl | omega
  · intro i h32
    rw [List.getD_eq_getElem?_getD, List.getD_eq_getElem?_getD]
    unfold deobfuscate_font
    rw [List.getElem?_mapIdx]
    rcases hx : data[i]? with _ | b
    · rfl
    · split_ifs with h1 h2 <;> first | omega | rfl
  · apply List.ext_getElem?
    intro i
    unfold deobfuscate_font
    rw [List.getElem?_mapIdx, List.getElem?_mapIdx]
    rcases hx : data[i]? with _ | b
    · rfl
    · split_ifs <;> simp [Nat.xor_cancel_right]

/-- Witness for C4 at a concrete 33-byte array and 16-byte key. -/
theorem claim_C4_witness :
    (deobfuscate_font (List.replicate 33 7)
        [1, 2, 3, 4, 5, 6, 7, 8, 9, 10, 11, 12, 13, 14, 15, 16]).getD 17 0 = 7 ^^^ 2 ∧
    (deobfuscate_font (List.replicate 33 7)
        [1, 2, 3, 4, 5, 6, 7, 8, 9, 10, 11, 12, 13, 14, 15, 16]).getD 32 0 = 7 ∧
    deobfuscate_font (deobfuscate_font (List.replicate 33 7)
        [1, 2, 3, 4, 5, 6, 7, 8, 9, 10, 11, 12, 13, 14, 15, 16])
        [1, 2, 3, 4, 5, 6, 7, 8, 9, 10, 11, 12, 13, 14, 15, 16] = List.replicate 33 7 := by
  have h := claim_C4 (List.replicate 33 7)
    [1, 2, 3, 4, 5, 6, 7, 8, 9, 10, 11, 12, 13, 14, 15, 16] (by decide)
  refine ⟨?_, h.2.1 32 (by decide), h.2.2⟩
  have := h.1 17 (by decide) (by decide)
  simpa using this

/-- C7: WinAnsi round-trip — for every representable character
(printable Latin-1 plus the 27 high-punctuation mappings), converting to
the WinAnsi byte and back yields the same character. -/
theorem claim_C7 : ∀ c ∈ winansi_representable, winansi_to_char (char_to_winansi c) = c := by
  decide

/-- Witness for C7 at the euro sign. -/
theorem claim_C7_witness : winansi_to_char (char_to_winansi '€') = '€' :=
  claim_C7 '€' (by decide)

/-- `encode_as_gids` written as a flat map: two bytes per character. -/
theorem encode_as_gids_eq_flatMap (text : RStr) (m : Char → Option Nat) :
    encode_as_gids text m =
      text.flatMap (fun ch => [((m ch).getD 0) >>> 8, ((m ch).getD 0) &&& 0xFF]) := by
  have gen : ∀ (t : RStr) (acc : List Nat),
      t.foldl (fun out ch => out ++ [((m ch).getD 0) >>> 8, ((m ch).getD 0) &&& 0xFF]) acc =
        acc ++ t.flatMap (fun ch => [((m ch).getD 0) >>> 8, ((m ch).getD 0) &&& 0xFF]) := by
    intro t
    induction t with
    | nil => intro acc; simp
    | cons c rest ih =>
      intro acc
      simp only [List.foldl_cons, List.flatMap_cons, ih, List.append_assoc]
  simpa using gen text []

/-- Index lemma for flat maps of two-element blocks. -/
theorem flat_pairs_getD (f g : Char → Nat) :
    ∀ (text : RStr) (i : Nat), i < text.length → ∀ d,
      ((text.flatMap (fun ch => [f ch, g ch])).getD (2 * i) d = f (text.getD i 'a') ∧
       (text.flatMap (fun ch => [f ch, g ch])).getD (2 * i + 1) d = g (text.getD i 'a')) := by
  intro text
  induction text with
  | nil => intro i hi; simp at hi
  | cons c rest ih =>
    intro i hi d
    cases i with
    | zero => simp
    | succ j =>
      have h2 : 2 * (j + 1) = (2 * j + 1) + 1 := by ring
      rw [h2]
      simp only [List.flatMap_cons, List.cons_append, List.getD_cons_succ, List.nil_append]
      exact ih j (by simpa using hi) d

/-- C10: the glyph-id encoder emits exactly 2 bytes per character (the
big-endian new gid); absent characters become glyph id 0 (bytes 0, 0)
rather than being dropped, so the output length is twice the character
count — while the WinAnsi path never grows and does drop unrepresentable
characters. -/
theorem claim_C10 (text : RStr) (m : Char → Option Nat) :
    (encode_as_gids text m).length = 2 * text.length ∧
    (∀ i, i < text.length → m (text.getD i 'a') = none →
      (encode_as_gids text m).getD (2 * i) 1 = 0 ∧
      (encode_as_gids text m).getD (2 * i + 1) 1 = 0) ∧
    (∀ s : RStr, (to_winansi_bytes s).length ≤ s.length) ∧
    (to_winansi_bytes ['→'] = [] ∧ encode_as_gids ['→'] (fun _ => none) = [0, 0]) := by
  refine ⟨?_, ?_, ?_, by decide, by decide⟩
  · rw [encode_as_gids_eq_flatMap]
    induction text with
    | nil => rfl
    | cons c rest ih => simpa [List.flatMap_cons, Nat.mul_succ] using ih
  · intro i hi hm
    rw [encode_as_gids_eq_flatMap]
    have h := flat_pairs_getD (fun ch => ((m ch).getD 0) >>> 8)
      (fun ch => ((m ch).getD 0) &&& 0xFF) text i hi 1
    rw [h.1, h.2, hm]
    exact ⟨rfl, rfl⟩
  · intro s
    simpa [to_winansi_bytes] using List.length_filterMap_le _ s

/-- Witness for C10: a two-character text with one unmapped character. -/
theorem claim_C10_witness :
    (encode_as_gids ['a', 'b'] (fun c => if c = 'a' then some 0x1234 else none)).length = 2 * 2 ∧
    (encode_as_gids ['a', 'b'] (fun c => if c = 'a' then some 0x1234 else none)).getD 2 1 = 0 ∧
    (encode_as_gids ['a', 'b'] (fun c => if c = 'a' then some 0x1234 else none)).getD 3 1 = 0 := by
  have h := claim_C10 ['a', 'b'] (fun c => if c = 'a' then some 0x1234 else none)
  have h1 := h.2.1 1 (by decide) (by decide)
  exact ⟨h.1, by simpa using h1.1, by simpa using h1.2⟩

/-- C3 counterexample: the private-use codepoint U+F041 is substituted by
`'A'` (its low byte), which is neither one of the five bullet-glyph
equivalents nor the claimed U+2022 fallback. -/
theorem claim_C3_counterexample :
    normalize_bullet_text [''] = ['A'] ∧
    ('A' ∉ ['•', '■', '○', '♦', '√']) ∧ 'A' ≠ '•' := by
  decide

/-- C3 as amended: of the PUA codepoints U+F000..U+F0FF, exactly the five
known Symbol/Wingdings codes (offsets 0xB7, 0xA7, 0xA8, 0xD8, 0x76) map
to the standard glyphs bullet/square/circle/diamond/check; every other
codepoint in the range maps to its low byte `cp - 0xF000`; the per-
codepoint substitution never falls back to U+2022 — the bullet fallback
`"•"` is used as the whole label only when the normalized `lvlText` is
empty. -/
theorem claim_C3 :
    (normalize_bullet_text [''] = ['•'] ∧
     normalize_bullet_text [''] = ['■'] ∧
     normalize_bullet_text [''] = ['○'] ∧
     normalize_bullet_text [''] = ['♦'] ∧
     normalize_bullet_text [''] = ['√']) ∧
    (∀ c : Char, 0xF000 ≤ c.toNat → c.toNat ≤ 0xF0FF →
      c.toNat - 0xF000 ∉ ([0xB7, 0xA7, 0xA8, 0xD8, 0x76] : List Nat) →
      normalize_bullet_text [c] = [Char.ofNat (c.toNat - 0xF000)]) ∧
    ((parse_list_info (some ⟨some ['1'], some 0⟩)
        ⟨fun a => if a = ['A'] then
            some (fun l => if l = 0 then some ⟨"bullet".data, [], 0, 0, 1⟩ else none)
          else none,
         fun n => if n = ['1'] then some ['A'] else none⟩
        ⟨fun _ => none, fun _ => none⟩).1.2.2) = ['•'] := by
  refine ⟨by decide, ?_, by decide⟩
  intro c h1 h2 h3
  have hval : (c.toNat - 0xF000).isValidChar := by
    left
    omega
  simp only [List.mem_cons, List.not_mem_nil, or_false, not_or] at h3
  obtain ⟨n1, n2, n3, n4, n5⟩ := h3
  have hmain : symbol_pua_to_unicode c.toNat = some (Char.ofNat (c.toNat - 0xF000)) := by
    simp only [symbol_pua_to_unicode]
    rw [if_neg n1, if_neg n2, if_neg n3, if_neg n4, if_neg n5, char_from_u32, if_pos hval]
  simp only [normalize_bullet_text, List.map_cons, List.map_nil]
  rw [if_pos (And.intro h1 h2), hmain, Option.getD_some]

/-- Witness for C3 at the PUA codepoint U+F042 → `'B'`. -/
theorem claim_C3_witness :
    normalize_bullet_text [''] = [Char.ofNat 0x42] :=
  claim_C3.2.1 '' (by decide) (by decide) (by decide)

/-- C1 counterexample: a valid ZIP whose well-formed `word/document.xml`
root has no `w:body` child makes `parse` fail with the `Pdf` error kind
(message "Missing w:body"), not `InvalidDocx` as claimed. -/
theorem claim_C1_counterexample :
    docx_parse (DocxInput.zip [("word/document.xml".data,
        XmlRes.wellFormed (Xml.elem (some WML_NS) "document".data []))]) =
      Except.error (Error.Pdf "Missing w:body".data) ∧
    is_invalid_docx (docx_parse (DocxInput.zip [("word/document.xml".data,
        XmlRes.wellFormed (Xml.elem (some WML_NS) "document".data []))])) = false := by
  exact ⟨rfl, rfl⟩

/-- C1 as amended: a non-ZIP input and a missing `word/document.xml` part
fail with `InvalidDocx`, a malformed main part fails with `XmlParse`, but
a well-formed main document whose root lacks a `w:body` child fails with
the `Pdf` error kind (message "Missing w:body", consistent with §7's
description of `Pdf`); parse never succeeds for any of these causes. -/
theorem claim_C1 :
    (docx_parse DocxInput.notZip =
      Except.error (Error.InvalidDocx "file is not a ZIP archive".data)) ∧
    (∀ entries, zip_entry entries "word/document.xml".data = none →
      docx_parse (DocxInput.zip entries) =
        Except.error (Error.InvalidDocx "missing word/document.xml (is this a DOCX file?)".data)) ∧
    (∀ entries, zip_entry entries "word/document.xml".data = some XmlRes.malformed →
      docx_parse (DocxInput.zip entries) = Except.error Error.XmlParse) ∧
    (∀ entries root, zip_entry entries "word/document.xml".data = some (XmlRes.wellFormed root) →
      wml root "body".data = none →
      docx_parse (DocxInput.zip entries) = Except.error (Error.Pdf "Missing w:body".data)) := by
  refine ⟨rfl, ?_, ?_, ?_⟩
  · intro entries h
    simp only [docx_parse, h]
  · intro entries h
    simp only [docx_parse, h]
  · intro entries root h1 h2
    simp only [docx_parse, h1, h2]

/-- Witness for C1: the empty archive is missing `word/document.xml`. -/
theorem claim_C1_witness :
    docx_parse (DocxInput.zip []) =
      Except.error (Error.InvalidDocx "missing word/document.xml (is this a DOCX file?)".data) :=
  claim_C1.2.1 [] rfl

/-- The counter-erase loop over a list of levels, pointwise. -/
theorem erase_fold (nid : RStr) (l : List Nat) :
    ∀ (m : RStr × Nat → Option Nat) (q : RStr × Nat),
      (l.foldl (fun m deeper => erase_counter m (nid, deeper)) m) q =
        if q.1 = nid ∧ q.2 ∈ l then none else m q := by
  induction l with
  | nil => intro m q; simp
  | cons dd t ih =>
    intro m q
    rcases q with ⟨qs, qe⟩
    simp only [List.foldl_cons, ih, List.mem_cons]
    simp only [erase_counter, Prod.mk.injEq]
    split_ifs <;> tauto

/-- `reset_counters`, pointwise: a counter is removed exactly when the
reset fires (`ilvl ≤ prev`) and its level lies in the wrapped `u8` range
`(ilvl+1) % 256 ..= prev`. -/
theorem reset_counters_spec (st : ListState) (num_id : RStr) (ilvl : Nat) (q : RStr × Nat) :
    reset_counters st num_id ilvl q =
      match st.last_seen_level num_id with
      | some prev =>
        if q.1 = num_id ∧ ilvl ≤ prev ∧ (ilvl + 1) % 256 ≤ q.2 ∧ q.2 ≤ prev then none
        else st.counters q
      | none => st.counters q := by
  rcases hls : st.last_seen_level num_id with _ | prev
  · simp only [reset_counters, hls]
  · simp only [reset_counters, hls]
    by_cases hle : ilvl ≤ prev
    · rw [if_pos hle, erase_fold]
      refine if_congr (and_congr_right' ?_) rfl rfl
      rw [List.mem_range'_1]
      have hlow : (ilvl + 1) % 256 ≤ ilvl + 1 := Nat.mod_le _ _
      omega
    · rw [if_neg hle, if_neg]
      rintro ⟨-, hc0, -, -⟩
      exact hle hc0

/-- A `parse_list_info` step preserves the counter invariant of every
`numId`. -/
theorem parse_list_info_preserves_inv
    (num_pr : Option NumPr) (numbering : NumberingInfo) (st : ListState) (nid : RStr)
    (h : counters_inv st nid) :
    counters_inv (parse_list_info num_pr numbering st).2 nid := by
  rcases num_pr with _ | np
  · exact h
  · rcases hnp : np.numId with _ | num_id
    · simp only [parse_list_info, hnp]
      exact h
    · by_cases h0 : num_id = "0".data
      · simp only [parse_list_info, hnp, if_pos h0]
        exact h
      · rcases h3 : numbering.num_to_abstract num_id with _ | abs_id
        · simp only [parse_list_info, hnp, if_neg h0, h3]
          exact h
        · rcases h4 : numbering.abstract_nums abs_id with _ | levels
          · simp only [parse_list_info, hnp, if_neg h0, h3, h4]
            exact h
          · rcases h5 : levels (np.ilvl.getD 0) with _ | d
            · simp only [parse_list_info, hnp, if_neg h0, h3, h4, h5]
              exact h
            · intro e he
              simp only [parse_list_info, hnp, if_neg h0, h3, h4, h5] at he ⊢
              by_cases hq : nid = num_id
              · subst hq
                simp at he
                have hne : ((nid, e) : RStr × Nat) ≠ (nid, np.ilvl.getD 0) := by
                  intro hcontra
                  rw [Prod.mk.injEq] at hcontra
                  omega
                simp only [insert_counter, if_neg hne, reset_counters_spec]
                rcases hls : st.last_seen_level nid with _ | prev
                · simp only [hls]
                  apply h e
                  rw [hls]
                  trivial
                · simp only [hls]
                  split_ifs with hc
                  · rfl
                  · apply h e
                    rw [hls]
                    rcases Nat.lt_or_ge prev e with hgt | hle2
                    · exact hgt
                    · exact absurd ⟨by trivial, by omega, by omega, hle2⟩ hc
              · simp only [if_neg hq] at he
                have hne : ((nid, e) : RStr × Nat) ≠ (num_id, np.ilvl.getD 0) := by
                  intro hcontra
                  rw [Prod.mk.injEq] at hcontra
                  exact hq hcontra.1
                simp only [insert_counter, if_neg hne, reset_counters_spec]
                rcases hls2 : st.last_seen_level num_id with _ | prev
                · simp only [hls2]
                  exact h e he
                · simp only [hls2]
                  rw [if_neg]
                  · exact h e he
                  · rintro ⟨hfst, -⟩
                    exact hq hfst

/-- C6 counterexample: two consecutive paragraphs at the maximal `u8`
level 255 under one `numId`.  The reset range `(ilvl + 1)..=prev` wraps
(`255u8 + 1 = 0` in release; debug panics), erasing the counters of
every level `0..=255` — including level 255 itself — so the level-255
counter restarts at the level's start value 1 instead of stepping its
previous value 7 to 8. -/
theorem claim_C6_counterexample :
    (parse_list_info (some ⟨some ['7'], some 255⟩) C6_wrap_numbering
        C6_wrap_state).2.counters (['7'], 255) = some 1 ∧
    C6_wrap_state.counters (['7'], 255) = some 7 ∧ (1 : Nat) ≠ 7 + 1 := by
  refine ⟨by decide, by decide, by decide⟩

/-- C6 as amended: for every level L < 255, the numbering counter at
`(numId, L)` starts at the level's declared start, is incremented on
each later paragraph at level L, and all deeper counters are cleared
whenever level L is revisited (the state invariant "no counter deeper
than the last seen level" holds initially and is preserved by every
step, wrap included); at L = 255 revisited after itself the `u8` lower
bound of the reset range wraps, clearing every counter of that `numId`
so the counter restarts at its start value (a debug build panics
instead).  With `lvlText "%1.%2."`, decimal formats at levels 0 and 1
and counters `(1, 3)`, the produced label is exactly `"1.3."`. -/
theorem claim_C6 :
    (∀ nid, counters_inv ⟨fun _ => none, fun _ => none⟩ nid) ∧
    (∀ num_pr numbering st nid, counters_inv st nid →
      counters_inv (parse_list_info num_pr numbering st).2 nid) ∧
    (∀ np numbering st num_id abs_id levels d,
      np.numId = some num_id → num_id ≠ "0".data →
      numbering.num_to_abstract num_id = some abs_id →
      numbering.abstract_nums abs_id = some levels →
      levels (np.ilvl.getD 0) = some d →
      np.ilvl.getD 0 < 255 →
      ((parse_list_info (some np) numbering st).2.counters (num_id, np.ilvl.getD 0) =
          some (match st.counters (num_id, np.ilvl.getD 0) with
                | some c => c + 1
                | none => d.start) ∧
        (parse_list_info (some np) numbering st).2.last_seen_level num_id =
          some (np.ilvl.getD 0) ∧
        (∀ e, np.ilvl.getD 0 < e → counters_inv st num_id →
          (parse_list_info (some np) numbering st).2.counters (num_id, e) = none))) ∧
    (parse_list_info (some ⟨some ['5'], some 1⟩) C6_numbering C6_state).1.2.2 =
      "1.3.".data := by
  refine ⟨?_, ?_, ?_, by decide⟩
  · intro nid e _he
    rfl
  · intro num_pr numbering st nid h
    exact parse_list_info_preserves_inv num_pr numbering st nid h
  · intro np numbering st num_id abs_id levels d h1 h2 h3 h4 h5 h255
    refine ⟨?_, ?_, ?_⟩
    · simp only [parse_list_info, h1, if_neg h2, h3, h4, h5, insert_counter]
      rw [if_pos trivial, reset_counters_spec]
      rcases hls : st.last_seen_level num_id with _ | prev
      · simp only [hls]
      · simp only [hls]
        rw [if_neg (by rintro ⟨-, -, hc1, -⟩; omega)]
    · simp only [parse_list_info, h1, if_neg h2, h3, h4, h5]
      simp
    · intro e he hinv
      have hls2 : (parse_list_info (some np) numbering st).2.last_seen_level num_id =
          some (np.ilvl.getD 0) := by
        simp only [parse_list_info, h1, if_neg h2, h3, h4, h5]
        simp
      have hpres := parse_list_info_preserves_inv (some np) numbering st num_id hinv
      apply hpres e
      rw [hls2]
      exact he

/-- Witness for C6: the concrete level-1 paragraph under counters
`(1, 2)` steps the level-1 counter to 3. -/
theorem claim_C6_witness :
    (parse_list_info (some ⟨some ['5'], some 1⟩) C6_numbering C6_state).2.counters (['5'], 1) =
      some 3 := by
  have h := claim_C6.2.2.1 ⟨some ['5'], some 1⟩ C6_numbering C6_state ['5'] ['A'] C6_levels
    ⟨"decimal".data, "%1.%2.".data, 0, 0, 1⟩ rfl (by decide) rfl rfl rfl (by decide)
  exact h.1.trans (by decide)

/-- A fold whose step preserves list length preserves it overall. -/
theorem foldl_length_eq {α : Type} (g : List ℚ → α → List ℚ)
    (h : ∀ acc x, (g acc x).length = acc.length) :
    ∀ (l : List α) (init : List ℚ), (l.foldl g init).length = init.length := by
  intro l
  induction l with
  | nil => intro init; rfl
  | cons x t ih =>
    intro init
    rw [List.foldl_cons, ih, h]

/-- One run's min-width contribution preserves the vector length. -/
theorem min_widths_run_length (sf : RStr → Option FontEntry) (gc : Nat)
    (mw : List ℚ) (run : Run) : (min_widths_run sf gc mw run).length = mw.length := by
  unfold min_widths_run
  cases sf (font_key run) with
  | none => rfl
  | some entry => exact foldl_length_eq _ (fun acc w => by simp) _ mw

/-- One cell's min-width contribution preserves the vector length. -/
theorem min_widths_cell_fst_length (sf : RStr → Option FontEntry) (ncols : Nat)
    (acc : List ℚ × Nat) (cell : TableCell) :
    (min_widths_cell sf ncols acc cell).1.length = acc.1.length := by
  simp only [min_widths_cell]
  split_ifs
  · rfl
  · exact foldl_length_eq _
      (fun mw para => foldl_length_eq _ (fun a r => min_widths_run_length sf _ a r) _ mw) _ _

/-- A row's cell fold preserves the vector length. -/
theorem cells_foldl_fst_length (sf : RStr → Option FontEntry) (ncols : Nat)
    (cells : List TableCell) :
    ∀ acc : List ℚ × Nat,
      ((cells.foldl (min_widths_cell sf ncols) acc).1).length = acc.1.length := by
  induction cells with
  | nil => intro acc; rfl
  | cons c t ih =>
    intro acc
    rw [List.foldl_cons, ih, min_widths_cell_fst_length]

/-- `table_min_widths` produces one entry per declared column. -/
theorem table_min_widths_length (table : Table) (sf : RStr → Option FontEntry) :
    (table_min_widths table sf).length = table.col_widths.length := by
  unfold table_min_widths
  have h := foldl_length_eq
    (fun mw row => (List.foldl (min_widths_cell sf table.col_widths.length) (mw, 0) row.cells).1)
    (fun mw row => cells_foldl_fst_length sf table.col_widths.length row.cells (mw, 0))
    table.rows (List.replicate table.col_widths.length 0)
  simpa using h

/-- Summing the expansion pass: the expanded total is the declared total
plus the accumulated deficit. -/
theorem expanded_widths_sum :
    ∀ (ws ms : List ℚ), ms.length = ws.length →
      (expanded_widths ws ms).sum = ws.sum + extra_needed ws ms := by
  intro ws
  induction ws with
  | nil =>
    intro ms h
    simp [expanded_widths, extra_needed]
  | cons w tw ih =>
    intro ms h
    rcases ms with _ | ⟨m, tm⟩
    · simp at h
    · have htm : tm.length = tw.length := by simpa using h
      simp only [expanded_widths, extra_needed, List.zip_cons_cons, List.map_cons,
        List.sum_cons] at ih ⊢
      rw [ih tm htm]
      split_ifs <;> ring

/-- Summing the shrink pass over the expanded widths. -/
theorem shrunk_expanded_sum :
    ∀ (ws ms : List ℚ) (factor : ℚ), ms.length = ws.length →
      (shrunk_widths (expanded_widths ws ms) ms factor).sum =
        ws.sum + extra_needed ws ms - factor * shrinkable ws ms := by
  intro ws
  induction ws with
  | nil =>
    intro ms factor h
    simp [shrunk_widths, expanded_widths, extra_needed, shrinkable]
  | cons w tw ih =>
    intro ms factor h
    rcases ms with _ | ⟨m, tm⟩
    · simp at h
    · have htm : tm.length = tw.length := by simpa using h
      simp only [shrunk_widths, expanded_widths, extra_needed, shrinkable,
        List.zip_cons_cons, List.map_cons, List.sum_cons] at ih ⊢
      rw [ih tm factor htm]
      by_cases h1 : m > w
      · rw [if_pos h1, if_pos h1, if_pos h1, if_neg (lt_irrefl m)]
        ring
      · rw [if_neg h1, if_neg h1, if_neg h1]
        by_cases h2 : w > m
        · rw [if_pos h2]
          ring
        · rw [if_neg h2]
          push_neg at h1 h2
          have hwm : w = m := le_antisymm h2 h1
          rw [hwm]
          ring

/-- The accumulated deficit is nonnegative. -/
theorem extra_needed_nonneg (ws ms : List ℚ) : 0 ≤ extra_needed ws ms := by
  unfold extra_needed
  apply List.sum_nonneg
  intro x hx
  simp only [List.mem_map] at hx
  obtain ⟨p, -, rfl⟩ := hx
  split_ifs with h
  · linarith
  · exact le_refl 0

/-- Multiplying every entry multiplies the sum. -/
theorem sum_map_mul_const (l : List ℚ) (c : ℚ) :
    (l.map (fun w => w * c)).sum = l.sum * c := by
  induction l with
  | nil => simp
  | cons x t ih =>
    simp only [List.map_cons, List.sum_cons, ih]
    ring

/-- C2 as amended: auto-fit preserves the total column width to within
0.01 pt (exactly, in exact arithmetic) for every table with nonnegative
declared total in which some column keeps slack or no column needs
expansion; when every column is at or below its content minimum and at
least one must expand, the expanded widths stand and the total grows by
the full deficit. -/
theorem claim_C2 (table : Table) (seen_fonts : RStr → Option FontEntry)
    (htotal : 0 ≤ table.col_widths.sum)
    (hslack : 0 < shrinkable table.col_widths (table_min_widths table seen_fonts) ∨
      extra_needed table.col_widths (table_min_widths table seen_fonts) = 0) :
    |(auto_fit_columns table seen_fonts).sum - table.col_widths.sum| ≤ 0.01 := by
  have hlen : (table_min_widths table seen_fonts).length = table.col_widths.length :=
    table_min_widths_length table seen_fonts
  simp only [auto_fit_columns]
  by_cases hz : table.col_widths.length = 0
  · rw [if_pos hz, sub_self, abs_zero]
    norm_num
  · rw [if_neg hz]
    set ms := table_min_widths table seen_fonts with hms
    set ex := extra_needed table.col_widths ms with hex
    set sh := shrinkable table.col_widths ms with hsh
    by_cases hcond : ex > 0 ∧ sh > 0
    · rw [if_pos hcond]
      set f := min ex sh / sh with hf
      set NT := (shrunk_widths (expanded_widths table.col_widths ms) ms f).sum with hNT
      have hnt : NT = table.col_widths.sum + ex - min ex sh := by
        rw [hNT, shrunk_expanded_sum table.col_widths ms f (by omega), ← hex, ← hsh, hf,
          div_mul_cancel₀ _ (ne_of_gt hcond.2)]
      by_cases habs : |NT - table.col_widths.sum| > 0.01
      · rw [if_pos habs]
        have hshex : sh ≤ ex := by
          rcases le_total ex sh with hle | hle
          · exfalso
            have h0 : NT - table.col_widths.sum = 0 := by
              rw [hnt, min_eq_left hle]
              ring
            rw [h0] at habs
            norm_num at habs
          · exact hle
        rw [min_eq_right hshex] at hnt
        have hd : NT - table.col_widths.sum = ex - sh := by
          rw [hnt]
          ring
        rw [hd] at habs
        rw [abs_of_nonneg (by linarith)] at habs
        have hNTpos : 0 < NT := by
          rw [hnt]
          linarith
        rw [sum_map_mul_const]
        have hcancel : NT * (table.col_widths.sum / NT) = table.col_widths.sum := by
          field_simp
        rw [hcancel, sub_self, abs_zero]
        norm_num
      · rw [if_neg habs]
        push_neg at habs
        exact habs
    · rw [if_neg hcond]
      have hex0 : ex = 0 := by
        rcases hslack with hsh0 | hex0
        · by_contra hne
          have hpos : 0 < ex := lt_of_le_of_ne (extra_needed_nonneg _ _) (Ne.symm hne)
          exact hcond ⟨hpos, hsh0⟩
        · exact hex0
      rw [expanded_widths_sum _ _ (by omega), ← hex, hex0]
      norm_num

/-- The C2 scenario's word measures 12 pt. -/
theorem C2_word_width : word_width C2_entry 12 ['!', '!'] = 12 := by
  unfold word_width C2_entry
  rw [show to_winansi_bytes ['!', '!'] = [33, 33] from by decide]
  rw [show ([33, 33] : List Nat).filter (fun b => 32 ≤ b) = [33, 33] from by decide]
  have hg : (List.replicate 224 (500 : ℚ)).getD (33 - 32) 0 = 500 := by
    rw [List.getD_eq_getElem?_getD, List.getElem?_replicate]
    norm_num
  simp only [List.map_cons, List.map_nil, List.sum_cons, List.sum_nil, hg]
  norm_num

/-- The C2 scenario's single column has content minimum 12 pt. -/
theorem C2_min_widths : table_min_widths C2_table C2_fonts = [12] := by
  have hkey : C2_fonts (font_key C2_run) = some C2_entry := by
    rw [show font_key C2_run = ['F'] from by decide]
    rfl
  unfold table_min_widths C2_table
  simp only [List.foldl_cons, List.foldl_nil, min_widths_cell, min_widths_run, hkey]
  rw [show split_whitespace C2_run.text = [['!', '!']] from by decide]
  norm_num [C2_run, C2_word_width]

/-- C2 counterexample: a one-column table declaring 10 pt whose content
needs 12 pt — no column has slack, so auto-fit returns [12] and the total
moves from 10 pt to 12 pt, off by 2 pt. -/
theorem claim_C2_counterexample :
    auto_fit_columns C2_table C2_fonts = [12] ∧
    ¬(|(auto_fit_columns C2_table C2_fonts).sum - C2_table.col_widths.sum| ≤ 0.01) := by
  have hfit : auto_fit_columns C2_table C2_fonts = [12] := by
    simp only [auto_fit_columns, C2_min_widths]
    norm_num [C2_table, extra_needed, shrinkable, expanded_widths, List.zip_cons_cons]
  refine ⟨hfit, ?_⟩
  rw [hfit]
  norm_num [C2_table]

/-- Witness for C2 at a table with no content (no expansion needed). -/
theorem claim_C2_witness :
    |(auto_fit_columns ⟨[10], []⟩ (fun _ => none)).sum -
      (Table.mk [10] []).col_widths.sum| ≤ 0.01 :=
  claim_C2 ⟨[10], []⟩ (fun _ => none) (by norm_num)
    (Or.inr (by norm_num [extra_needed, table_min_widths, List.zip_cons_cons]))

/-- Filters with pointwise-implied predicates have ordered lengths. -/
theorem length_filter_mono {α : Type} (p q : α → Bool)
    (hpq : ∀ x, p x = true → q x = true) :
    ∀ l : List α, (l.filter p).length ≤ (l.filter q).length := by
  intro l
  induction l with
  | nil => simp
  | cons x t ih =>
    by_cases hp : p x = true
    · rw [List.filter_cons_of_pos hp, List.filter_cons_of_pos (hpq x hp)]
      simpa using ih
    · rw [List.filter_cons_of_neg (by simpa using hp)]
      by_cases hq : q x = true
      · rw [List.filter_cons_of_pos hq]
        exact le_trans ih (by simp)
      · rw [List.filter_cons_of_neg (by simpa using hq)]
        exact ih

/-- A filter loses strictly when one kept element is dropped. -/
theorem length_filter_strict {α : Type} (p q : α → Bool)
    (hpq : ∀ x, p x = true → q x = true) (cur : α)
    (hp : p cur = false) (hq : q cur = true) :
    ∀ l : List α, cur ∈ l → (l.filter p).length < (l.filter q).length := by
  intro l
  induction l with
  | nil => intro h; simp at h
  | cons x t ih =>
    intro hmem
    by_cases hx : x = cur
    · subst hx
      rw [List.filter_cons_of_neg (by simp [hp]), List.filter_cons_of_pos hq]
      exact Nat.lt_succ_of_le (length_filter_mono p q hpq t)
    · have hmem' : cur ∈ t := by
        rcases List.mem_cons.mp hmem with h | h
        · exact absurd h.symm hx
        · exact h
      by_cases hpx : p x = true
      · rw [List.filter_cons_of_pos hpx, List.filter_cons_of_pos (hpq x hpx)]
        simpa using ih hmem'
      · rw [List.filter_cons_of_neg (by simpa using hpx)]
        by_cases hqx : q x = true
        · rw [List.filter_cons_of_pos hqx]
          exact Nat.lt_succ_of_lt (ih hmem')
        · rw [List.filter_cons_of_neg (by simpa using hqx)]
          exact ih hmem'

/-- A successful style lookup means the id is among the keys. -/
theorem lookup_style_mem (styles : StyleMap) (id : RStr) (s : ParagraphStyle)
    (h : lookup_style styles id = some s) : id ∈ styles.map (fun p => p.1) := by
  unfold lookup_style at h
  rcases hf : styles.find? (fun p => p.1 = id) with _ | q
  · rw [hf] at h
    simp at h
  · have hq := List.find?_some hf
    have hqmem := List.mem_of_find?_eq_some hf
    simp only [decide_eq_true_eq] at hq
    rw [← hq]
    exact List.mem_map_of_mem (fun p => p.1) hqmem

/-- The chain-measure of `build_chain`: keys not yet in the chain. -/
def chain_measure (styles : StyleMap) (chain : List RStr) : Nat :=
  ((styles.map (fun p => p.1)).filter (fun k => decide (k ∉ chain))).length

/-- One extra unit of fuel changes nothing once the fuel dominates the
chain measure: the ancestor-chain loop has terminated by then. -/
theorem build_chain_fuel_succ (styles : StyleMap) :
    ∀ (fuel : Nat) (chain : List RStr) (cur : RStr),
      chain_measure styles chain + 1 ≤ fuel →
      build_chain styles chain cur (fuel + 1) = build_chain styles chain cur fuel := by
  intro fuel
  induction fuel with
  | zero => intro chain cur h; omega
  | succ f ih =>
    intro chain cur h
    simp only [build_chain]
    by_cases hmem : cur ∈ chain
    · rw [if_pos hmem, if_pos hmem]
    · rw [if_neg hmem, if_neg hmem]
      rcases hl : (lookup_style styles cur).bind (fun s => s.based_on) with _ | parent
    -- none: both sides stop at chain ++ [cur]
      · rfl
      · obtain ⟨s, hs, -⟩ := Option.bind_eq_some.mp hl
        have hcurmem : cur ∈ styles.map (fun p => p.1) := lookup_style_mem styles cur s hs
        have hdec : chain_measure styles (chain ++ [cur]) < chain_measure styles chain := by
          unfold chain_measure
          refine length_filter_strict (fun k => decide (k ∉ chain ++ [cur]))
            (fun k => decide (k ∉ chain)) ?_ cur ?_ ?_ _ hcurmem
          · intro x hx
            rw [decide_eq_true_eq] at hx ⊢
            intro hc
            exact hx (List.mem_append_left [cur] hc)
          · simp
          · rw [decide_eq_true_eq]
            exact hmem
        exact ih (chain ++ [cur]) parent (by omega)

/-- Any fuel at or above `styles.length + 1` yields the same chain:
the ancestor-chain construction terminates, cycles included. -/
theorem build_chain_stable (styles : StyleMap) (id : RStr) :
    ∀ extra, build_chain styles [] id (styles.length + 1 + extra) =
      build_chain styles [] id (styles.length + 1) := by
  have hm : chain_measure styles [] ≤ styles.length := by
    unfold chain_measure
    calc ((styles.map (fun p => p.1)).filter (fun k => decide (k ∉ ([] : List RStr)))).length ≤
        (styles.map (fun p => p.1)).length := List.length_filter_le _ _
      _ = styles.length := List.length_map _ _
  intro extra
  induction extra with
  | zero => rfl
  | succ e ih =>
    have heq : styles.length + 1 + (e + 1) = (styles.length + 1 + e) + 1 := by omega
    rw [heq, build_chain_fuel_succ styles (styles.length + 1 + e) [] id (by omega), ih]

/-- The chain never repeats an id: the loop breaks at the first repeat. -/
theorem build_chain_nodup (styles : StyleMap) :
    ∀ (fuel : Nat) (chain : List RStr) (cur : RStr), chain.Nodup →
      (build_chain styles chain cur fuel).Nodup := by
  intro fuel
  induction fuel with
  | zero => intro chain cur h; exact h
  | succ f ih =>
    intro chain cur h
    simp only [build_chain]
    by_cases hmem : cur ∈ chain
    · rw [if_pos hmem]
      exact h
    · rw [if_neg hmem]
      have h' : (chain ++ [cur]).Nodup := by
        simp [List.nodup_append, h, hmem]
      rcases (lookup_style styles cur).bind (fun s => s.based_on) with _ | parent
      · exact h'
      · exact ih (chain ++ [cur]) parent h'

/-- `build_chain` only ever extends its accumulator. -/
theorem build_chain_extends (styles : StyleMap) :
    ∀ (fuel : Nat) (chain : List RStr) (cur : RStr),
      ∃ t, build_chain styles chain cur fuel = chain ++ t := by
  intro fuel
  induction fuel with
  | zero => intro chain cur; exact ⟨[], (List.append_nil chain).symm⟩
  | succ f ih =>
    intro chain cur
    simp only [build_chain]
    by_cases hmem : cur ∈ chain
    · rw [if_pos hmem]
      exact ⟨[], (List.append_nil chain).symm⟩
    · rw [if_neg hmem]
      rcases (lookup_style styles cur).bind (fun s => s.based_on) with _ | parent
      · exact ⟨[cur], rfl⟩
      · obtain ⟨t, ht⟩ := ih (chain ++ [cur]) parent
        refine ⟨[cur] ++ t, ?_⟩
        show build_chain styles (chain ++ [cur]) parent f = chain ++ ([cur] ++ t)
        rw [ht, List.append_assoc]

/-- A chain built from the empty accumulator starts at the style itself. -/
theorem build_chain_head (styles : StyleMap) (id : RStr) (fuel : Nat) :
    ∃ t, build_chain styles [] id (fuel + 1) = id :: t := by
  simp only [build_chain]
  rw [if_neg (List.not_mem_nil id)]
  rcases (lookup_style styles id).bind (fun s => s.based_on) with _ | parent
  · exact ⟨[], rfl⟩
  · obtain ⟨t, ht⟩ := build_chain_extends styles fuel ([] ++ [id]) parent
    exact ⟨t, by simpa using ht⟩

/-- Projecting the inherited-attribute fold: the accumulated value of an
attribute is its first `Some` along the chain, nearest ancestor winning. -/
theorem accumulate_get {α : Type} (styles : StyleMap) (get : ParagraphStyle → Option α)
    (hempty : get empty_inherited = none)
    (hstep : ∀ s inh, get (inherit_core s inh) =
      if (get s).isSome then get s else get inh) :
    ∀ chain, get (accumulate_inherited styles chain) = chain_first styles chain get := by
  intro chain
  unfold accumulate_inherited chain_first
  rw [List.foldl_reverse]
  induction chain with
  | nil => simpa using hempty
  | cons a t ih =>
    simp only [List.foldr_cons, List.findSome?_cons]
    rcases hl : lookup_style styles a with _ | s
    · simp only [inherit_step, hl, Option.none_bind]
      exact ih
    · simp only [inherit_step, hl, Option.some_bind, hstep s]
      by_cases hs : (get s).isSome
      · obtain ⟨v, hv⟩ := Option.isSome_iff_exists.mp hs
        rw [if_pos hs, hv]
      · rw [if_neg hs, Option.not_isSome_iff_eq_none.mp hs]
        exact ih

/-- Looking up the updated id returns the updated style. -/
theorem lookup_update_style (styles : StyleMap) (id : RStr)
    (f : ParagraphStyle → ParagraphStyle) :
    lookup_style (update_style styles id f) id = (lookup_style styles id).map f := by
  induction styles with
  | nil => rfl
  | cons p rest ih =>
    rcases p with ⟨k, v⟩
    simp only [update_style]
    by_cases hk : k = id
    · rw [if_pos hk]
      simp [lookup_style, List.find?_cons, hk]
    · rw [if_neg hk]
      simp only [lookup_style, List.find?_cons] at ih ⊢
      have hd : decide (k = id) = false := by simpa using hk
      simp only [hd]
      exact ih

/-- Prepending the style itself to its ancestor chain does not change the
first-`Some` scan when the style is the chain's head. -/
theorem or_chain_first {α : Type} (styles : StyleMap) (get : ParagraphStyle → Option α)
    (id : RStr) (t : List RStr) (s0 : ParagraphStyle)
    (hl : lookup_style styles id = some s0) :
    (get s0).or (chain_first styles (id :: t) get) = chain_first styles (id :: t) get := by
  unfold chain_first
  simp only [List.findSome?_cons, hl, Option.some_bind]
  rcases hg : get s0 with _ | v
  · simp
  · simp

/-- C8: for every style dictionary — cycles of any length included — the
ancestor-chain construction terminates (more fuel than `|styles| + 1`
changes nothing) and never repeats an id; the full pass visits every key
in order; and each resolved attribute of a style equals its own explicit
value overriding the accumulated ancestor values, nearer ancestors
winning — i.e. the first `Some` along its ancestor chain. -/
theorem claim_C8 (styles : StyleMap) (id : RStr) :
    (build_chain styles [] id (styles.length + 1)).Nodup ∧
    (∀ extra, build_chain styles [] id (styles.length + 1 + extra) =
      build_chain styles [] id (styles.length + 1)) ∧
    resolve_based_on styles = (styles.map (fun p => p.1)).foldl resolve_one styles ∧
    (∀ s0, lookup_style styles id = some s0 →
      ∃ r, lookup_style (resolve_one styles id) id = some r ∧
        r.font_size = chain_first styles (build_chain styles [] id (styles.length + 1))
          (fun s => s.font_size) ∧
        r.font_name = chain_first styles (build_chain styles [] id (styles.length + 1))
          (fun s => s.font_name) ∧
        r.bold = chain_first styles (build_chain styles [] id (styles.length + 1))
          (fun s => s.bold) ∧
        r.italic = chain_first styles (build_chain styles [] id (styles.length + 1))
          (fun s => s.italic) ∧
        r.color = chain_first styles (build_chain styles [] id (styles.length + 1))
          (fun s => s.color) ∧
        r.alignment = chain_first styles (build_chain styles [] id (styles.length + 1))
          (fun s => s.alignment) ∧
        r.space_before = chain_first styles (build_chain styles [] id (styles.length + 1))
          (fun s => s.space_before) ∧
        r.space_after = chain_first styles (build_chain styles [] id (styles.length + 1))
          (fun s => s.space_after) ∧
        r.line_spacing = chain_first styles (build_chain styles [] id (styles.length + 1))
          (fun s => s.line_spacing)) := by
  refine ⟨build_chain_nodup styles _ [] id List.nodup_nil, build_chain_stable styles id,
    rfl, ?_⟩
  intro s0 hs0
  obtain ⟨t, ht⟩ := build_chain_head styles id styles.length
  have hfield : ∀ {α : Type} (get : ParagraphStyle → Option α),
      get empty_inherited = none →
      (∀ s inh, get (inherit_core s inh) = if (get s).isSome then get s else get inh) →
      (∀ s inh, get (override_style s inh) = (get s).or (get inh)) →
      get (override_style s0 (accumulate_inherited styles
        (build_chain styles [] id (styles.length + 1)))) =
        chain_first styles (build_chain styles [] id (styles.length + 1)) get := by
    intro α get h1 h2 h3
    rw [h3, accumulate_get styles get h1 h2, ht]
    exact or_chain_first styles get id t s0 hs0
  refine ⟨override_style s0 (accumulate_inherited styles
      (build_chain styles [] id (styles.length + 1))), ?_,
    hfield (fun s => s.font_size) rfl (fun s inh => rfl) (fun s inh => rfl),
    hfield (fun s => s.font_name) rfl (fun s inh => rfl) (fun s inh => rfl),
    hfield (fun s => s.bold) rfl (fun s inh => rfl) (fun s inh => rfl),
    hfield (fun s => s.italic) rfl (fun s inh => rfl) (fun s inh => rfl),
    hfield (fun s => s.color) rfl (fun s inh => rfl) (fun s inh => rfl),
    hfield (fun s => s.alignment) rfl (fun s inh => rfl) (fun s inh => rfl),
    hfield (fun s => s.space_before) rfl (fun s inh => rfl) (fun s inh => rfl),
    hfield (fun s => s.space_after) rfl (fun s inh => rfl) (fun s inh => rfl),
    hfield (fun s => s.line_spacing) rfl (fun s inh => rfl) (fun s inh => rfl)⟩
  simp only [resolve_one]
  rw [lookup_update_style, hs0]
  rfl

/-- Witness for C8 at the concrete 2-cycle styles map: resolving `"a"`
terminates and inherits font size 14 from `"b"`. -/
theorem claim_C8_witness :
    (build_chain C8_styles [] ['a'] (C8_styles.length + 1)).Nodup ∧
    ∃ r, lookup_style (resolve_one C8_styles ['a']) ['a'] = some r ∧
      r.font_size = chain_first C8_styles
        (build_chain C8_styles [] ['a'] (C8_styles.length + 1)) (fun s => s.font_size) := by
  have h := claim_C8 C8_styles ['a']
  obtain ⟨r, hr, hfs, -, -, -, -, -, -, -, -⟩ := h.2.2.2 C8_a rfl
  exact ⟨h.1, r, hr, hfs⟩

end Docxide
